import Mathlib

/-!
Verification of the ProviderProfile resolver
(`codex-rs/core/src/model_provider_info.rs`).

Strings are modelled as lists of characters (`Str`); the process
environment is an injected association list from variable names to
values, as the design notes of the specification suggest.  A Rust
`HashMap` is modelled by its lookup function (`HMap`), for which
`insert` is last-write-wins — exactly the observable behaviour of
`HashMap::insert` / `HashMap::get`.

The substitution loop of `substitute_env_vars` is not structurally
terminating (and indeed does not terminate on some inputs), so it is
embedded with explicit fuel: `substFuel n env s = some r` states that
the Rust loop finishes within `n` iterations and returns `r`, while
`none` means the loop has not finished within `n` iterations.
-/

abbrev Str := List Char

abbrev Env := List (Str × Str)

/-- Lookup of an environment variable, `std::env::var` with `none` for
`VarError::NotPresent`.  (`VarError::NotUnicode` is unrepresentable in
this character-level model.) -/
def envVar (vars : Env) (name : Str) : Option Str :=
  vars.lookup name

/-- The literal two-character marker searched for by
`result.find("$\x7b")`. -/
def dolBrace : Str := ['$', '\x7b']

/-- Index of the first occurrence of `pat` in `s` (`str::find` for a
string pattern). -/
def findSub (pat : Str) : Str → Option Nat
  | [] => if pat = [] then some 0 else none
  | x :: xs =>
    if pat.isPrefixOf (x :: xs) then some 0
    else (findSub pat xs).map (fun i => i + 1)

/-- Index of the first occurrence of the character `c` (`str::find` for
a char pattern). -/
def findChar (c : Char) : Str → Option Nat
  | [] => none
  | x :: xs =>
    if x = c then some 0
    else (findChar c xs).map (fun i => i + 1)

/-- One iteration of the `while` loop of `substitute_env_vars`
(model_provider_info.rs lines 145–156): `none` means the loop stops
(either no further `$\x7b` marker, or the `break` on a missing `\x7d`);
`some r` means one replacement was performed, yielding `r`. -/
def substStep (env : Env) (result : Str) : Option Str :=
  match findSub dolBrace result with
  | none => none
  | some start =>
    match findChar '\x7d' (result.drop (start + 2)) with
    | none => none
    | some e =>
      let var_name := (result.drop (start + 2)).take e
      let replacement := (envVar env var_name).getD []
      some (result.take start ++ replacement ++ result.drop (start + 3 + e))

/-- The `substitute_env_vars` loop with fuel: `some r` exactly when the
loop terminates within `n` iterations with final string `r`. -/
def substFuel : Nat → Env → Str → Option Str
  | 0, _, _ => none
  | n + 1, env, result =>
    match substStep env result with
    | none => some result
    | some r => substFuel n env r

/-- Everything before the first occurrence of `c`, and everything after
it (`str::split_once`). -/
def splitOnceChar (c : Char) : Str → Option (Str × Str)
  | [] => none
  | x :: xs =>
    if x = c then some ([], xs)
    else (splitOnceChar c xs).map (fun p => (x :: p.1, p.2))

/-- Unicode code points with the White_Space property, the set used by
Rust's `char::is_whitespace`. -/
def rustWhitespaceCodes : List Nat :=
  [9, 10, 11, 12, 13, 32, 0x85, 0xA0, 0x1680,
   0x2000, 0x2001, 0x2002, 0x2003, 0x2004, 0x2005, 0x2006, 0x2007,
   0x2008, 0x2009, 0x200A, 0x2028, 0x2029, 0x202F, 0x205F, 0x3000]

def isRustWhitespace (c : Char) : Bool :=
  rustWhitespaceCodes.contains c.toNat

/-- `str::trim_start`. -/
def trimStart (s : Str) : Str := s.dropWhile isRustWhitespace

/-- `str::trim_end`. -/
def trimEnd (s : Str) : Str := (s.reverse.dropWhile isRustWhitespace).reverse

/-- `str::trim`. -/
def trimStr (s : Str) : Str := trimEnd (trimStart s)

/-- Split at every occurrence of `c`, keeping empty pieces (`n`
separators yield `n + 1` pieces). -/
def splitOnChar (c : Char) : Str → List Str
  | [] => [[]]
  | x :: xs =>
    match splitOnChar c xs with
    | [] => if x = c then [[], []] else [[x]]
    | p :: ps => if x = c then [] :: p :: ps else (x :: p) :: ps

/-- Remove one trailing carriage return, as `str::lines` does on each
line. -/
def stripTrailingCr (s : Str) : Str :=
  if s.getLast? = some '\r' then s.dropLast else s

/-- `str::lines`: split on newline, with no empty piece after a
trailing newline, and a trailing carriage return removed from each
line. -/
def linesList (s : Str) : List Str :=
  let parts := splitOnChar '\n' s
  let parts := if parts.getLast? = some [] then parts.dropLast else parts
  parts.map stripTrailingCr

/-- A `HashMap<String, String>` observed through `get`: the model is
the lookup function itself. -/
abbrev HMap := Str → Option Str

def hEmpty : HMap := fun _ => none

/-- `HashMap::insert`: the new binding shadows any previous binding of
the same key. -/
def hInsert (k v : Str) (m : HMap) : HMap :=
  fun q => if q = k then some v else m q

/-- Wire protocol variants (`WireApi`). -/
inductive WireApi
  | Responses
  | Chat
deriving DecidableEq

/-- A provider profile (`ModelProviderInfo`). -/
structure ModelProviderInfo where
  name : Str
  base_url : Str
  env_key : Option Str
  env_key_instructions : Option Str
  wire_api : WireApi
  query_params : Option (List (Str × Str))
  custom_headers : Option (List (Str × Str))
deriving DecidableEq

/-- `Vec::join("&")`. -/
def joinAmp : List Str → Str
  | [] => []
  | [x] => x
  | x :: y :: rest => x ++ '&' :: joinAmp (y :: rest)

/-- The `query_string` computed at the start of `get_full_url`
(lines 61–71): `map_or_else` over `query_params`, rendering each entry
as `k=v` and joining with `&`.  Note that a present-but-empty map
yields the one-character string `?`. -/
def queryStringOf (qp : Option (List (Str × Str))) : Str :=
  match qp with
  | none => []
  | some params => '?' :: joinAmp (params.map (fun kv => kv.1 ++ '=' :: kv.2))

/-- `get_full_url` (lines 60–77). -/
def get_full_url (p : ModelProviderInfo) : Str :=
  let query_string := queryStringOf p.query_params
  match p.wire_api with
  | WireApi.Responses => p.base_url ++ "/responses".toList ++ query_string
  | WireApi.Chat => p.base_url ++ "/chat/completions".toList ++ query_string

/-- The base URL followed by the wire-protocol segment, with no query
string: the shape the specification calls "the wire-protocol suffix
appended to `base_url`". -/
def baseAndSuffix (p : ModelProviderInfo) : Str :=
  match p.wire_api with
  | WireApi.Responses => p.base_url ++ "/responses".toList
  | WireApi.Chat => p.base_url ++ "/chat/completions".toList

def OPENAI_API_KEY_ENV_VAR : Str := "OPENAI_API_KEY".toList

def CODEX_CUSTOM_HEADERS_VAR : Str := "CODEX_CUSTOM_HEADERS".toList

/-- Ambient process state visible to the resolver: the environment
variables, plus the result of the alternate credential lookup used for
the primary key variable. -/
structure EnvState where
  vars : Env
  altOpenaiKey : Option Str

/-- Modelled from the spec: `get_openai_api_key` lives in the crate's
`openai_api_key` module, which is not among the sources here.  Per the
specification, the designated primary credential variable is read from
the process environment and "additionally falls back to an alternate
provider-specific lookup mechanism (external collaborator) before
failing"; `altOpenaiKey` is the result of that alternate mechanism. -/
def get_openai_api_key (st : EnvState) : Option Str :=
  match envVar st.vars OPENAI_API_KEY_ENV_VAR with
  | some v => some v
  | none => st.altOpenaiKey

/-- The credential lookup performed for one `env_key` name: the
designated primary variable goes through `get_openai_api_key`, every
other name is a plain environment read. -/
def credLookup (st : EnvState) (k : Str) : Option Str :=
  if k = OPENAI_API_KEY_ENV_VAR then get_openai_api_key st
  else envVar st.vars k

/-- `std::env::VarError`. -/
inductive VarError
  | notPresent
  | notUnicode
deriving DecidableEq

/-- `Option::map_or_else(|| Err(VarError::NotPresent), Ok)`. -/
def optionToVarResult (o : Option Str) : Except VarError Str :=
  match o with
  | none => Except.error VarError.notPresent
  | some v => Except.ok v

/-- The `EnvVarError` payload carried by `CodexErr::EnvVar`. -/
structure EnvVarError where
  var : Str
  instructions : Option Str
deriving DecidableEq

/-- `ModelProviderInfo::api_key` (lines 84–109). -/
def api_key (st : EnvState) (p : ModelProviderInfo) :
    Except EnvVarError (Option Str) :=
  match p.env_key with
  | some env_key =>
    let env_value : Except VarError Str :=
      if env_key = OPENAI_API_KEY_ENV_VAR then
        optionToVarResult (get_openai_api_key st)
      else
        optionToVarResult (envVar st.vars env_key)
    match env_value.bind (fun v =>
        if trimStr v = [] then Except.error VarError.notPresent
        else Except.ok (some v)) with
    | Except.error _ =>
      Except.error { var := env_key, instructions := p.env_key_instructions }
    | Except.ok r => Except.ok r
  | none => Except.ok none

/-- Processing of one line of the `CODEX_CUSTOM_HEADERS` block (the
loop body at lines 127–134): split at the first colon, trim both
pieces, substitute the value, insert; a line with no colon contributes
nothing. -/
def processLine (n : Nat) (env : Env) (m : HMap) (line : Str) : Option HMap :=
  match splitOnceChar ':' line with
  | none => some m
  | some (key, value) =>
    match substFuel n env (trimStr value) with
    | none => none
    | some pv => some (hInsert (trimStr key) pv m)

/-- The `for line in env_headers.lines()` loop. -/
def processBlock (n : Nat) (env : Env) (m : HMap) : List Str → Option HMap
  | [] => some m
  | line :: rest =>
    match processLine n env m line with
    | none => none
    | some m2 => processBlock n env m2 rest

/-- The `for (key, value) in provider_headers` loop (lines 118–123). -/
def providerMap (n : Nat) (env : Env) (m : HMap) :
    List (Str × Str) → Option HMap
  | [] => some m
  | (k, v) :: rest =>
    match substFuel n env v with
    | none => none
    | some pv => providerMap n env (hInsert k pv m) rest

/-- `ModelProviderInfo::get_custom_headers` (lines 114–138): provider
headers first, then the `CODEX_CUSTOM_HEADERS` block.  `none` means
some substitution loop did not finish within the given fuel. -/
def get_custom_headers (n : Nat) (st : EnvState) (p : ModelProviderInfo) :
    Option HMap :=
  match providerMap n st.vars hEmpty (p.custom_headers.getD []) with
  | none => none
  | some m1 =>
    match envVar st.vars CODEX_CUSTOM_HEADERS_VAR with
    | none => some m1
    | some env_headers => processBlock n st.vars m1 (linesList env_headers)

/-- Modelled from the spec: single-level placeholder substitution as
the specification words it — scan left to right, splice in the value of
each placeholder, and continue scanning strictly after the spliced
text, so replacement text is never itself scanned.  The fuel is only a
structural-recursion device; `s.length` steps always suffice because
every step consumes at least one character. -/
def substSpecGo (env : Env) : Nat → Str → Str
  | 0, s => s
  | _ + 1, [] => []
  | fuel + 1, '$' :: '\x7b' :: rest =>
    (match splitOnceChar '\x7d' rest with
     | none => '$' :: '\x7b' :: rest
     | some (nm, after) =>
        ((envVar env nm).getD []) ++ substSpecGo env fuel after)
  | fuel + 1, c :: rest => c :: substSpecGo env fuel rest

/-- Modelled from the spec: the whole single-level substitution. -/
def substSpec (env : Env) (s : Str) : Str := substSpecGo env s.length s

/-- The built-in `openai` provider entry of
`built_in_model_providers`. -/
def openaiProvider : ModelProviderInfo where
  name := "OpenAI".toList
  base_url := "https://api.openai.com/v1".toList
  env_key := some OPENAI_API_KEY_ENV_VAR
  env_key_instructions :=
    some ("Create an API key (https://platform.openai.com) and export it as an environment variable.".toList)
  wire_api := WireApi.Responses
  query_params := none
  custom_headers := none

/-- `built_in_model_providers`. -/
def built_in_model_providers : List (Str × ModelProviderInfo) :=
  [("openai".toList, openaiProvider)]

/-! Concrete fixtures used by counterexamples and witnesses. -/

/-- Environment for the substitution counterexample: `A` holds a
placeholder for `B`, `B` holds plain text. -/
def envC1 : Env := [("A".toList, "$\x7bB\x7d".toList), ("B".toList, "x".toList)]

/-- Self-referential environment: the value of `A` is a placeholder
for `A` itself. -/
def envC2 : Env := [("A".toList, "$\x7bA\x7d".toList)]

def tC2 : Str := "$\x7bA\x7d".toList

def stC2 : EnvState := { vars := envC2, altOpenaiKey := none }

/-- Profile whose one custom header value is the self-referential
template. -/
def pC2 : ModelProviderInfo where
  name := "P".toList
  base_url := "b".toList
  env_key := none
  env_key_instructions := none
  wire_api := WireApi.Chat
  query_params := none
  custom_headers := some [("X-Loop".toList, tC2)]

/-- Profile with `query_params` present but empty. -/
def pC3 : ModelProviderInfo where
  name := "P".toList
  base_url := "b".toList
  env_key := none
  env_key_instructions := none
  wire_api := WireApi.Chat
  query_params := some []
  custom_headers := none

/-- The Azure-shaped profile from the specification's example. -/
def pAzure : ModelProviderInfo where
  name := "Azure".toList
  base_url := "https://x.openai.azure.com/openai".toList
  env_key := none
  env_key_instructions := none
  wire_api := WireApi.Chat
  query_params := some [("api-version".toList, "2025-04-01-preview".toList)]
  custom_headers := none

/-- State where the primary key variable is not in the environment but
the alternate lookup mechanism has a credential. -/
def stC5 : EnvState := { vars := [], altOpenaiKey := some "sk-alt".toList }

/-- Profile requiring the primary key variable. -/
def pC5 : ModelProviderInfo where
  name := "OpenAI".toList
  base_url := "https://api.openai.com/v1".toList
  env_key := some OPENAI_API_KEY_ENV_VAR
  env_key_instructions := none
  wire_api := WireApi.Responses
  query_params := none
  custom_headers := none

/-- State where `AZURE_KEY` is set to whitespace only. -/
def stC5w : EnvState :=
  { vars := [("AZURE_KEY".toList, "   ".toList)], altOpenaiKey := none }

/-- Profile requiring `AZURE_KEY`, with remediation instructions. -/
def pC5w : ModelProviderInfo where
  name := "Azure".toList
  base_url := "https://x".toList
  env_key := some "AZURE_KEY".toList
  env_key_instructions := some "set it".toList
  wire_api := WireApi.Chat
  query_params := none
  custom_headers := none

/-- State with a process-wide header block overriding `X-A`, plus the
variable `T` used inside the block's template. -/
def stC6 : EnvState where
  vars := [(CODEX_CUSTOM_HEADERS_VAR, "X-A: Bearer $\x7bT\x7d".toList),
           ("T".toList, "secret".toList)]
  altOpenaiKey := none

/-- Profile carrying a per-profile `X-A` header that the block
shadows. -/
def pC6 : ModelProviderInfo where
  name := "P".toList
  base_url := "b".toList
  env_key := none
  env_key_instructions := none
  wire_api := WireApi.Chat
  query_params := none
  custom_headers := some [("X-A".toList, "static".toList)]

/-- The block of `stC6` processed on its own, starting from the empty
map. -/
def MbC6 : HMap := hInsert "X-A".toList "Bearer secret".toList hEmpty

/-- Full header resolution for `stC6` and `pC6`. -/
def MC6 : HMap :=
  hInsert "X-A".toList "Bearer secret".toList
    (hInsert "X-A".toList "static".toList hEmpty)

/-- State where `X` is set to a value with surrounding whitespace. -/
def stC9w : EnvState :=
  { vars := [("X".toList, " k ".toList)], altOpenaiKey := none }

/-- Profile requiring `X`. -/
def pC9w : ModelProviderInfo where
  name := "P".toList
  base_url := "b".toList
  env_key := some "X".toList
  env_key_instructions := none
  wire_api := WireApi.Chat
  query_params := none
  custom_headers := none

/-! Helper lemmas. -/

lemma findSub_here (t : Str) : findSub dolBrace ('$' :: '\x7b' :: t) = some 0 := by
  simp [findSub, dolBrace, List.isPrefixOf]

lemma findChar_append (c : Char) (a b : Str) (h : c ∉ a) :
    findChar c (a ++ c :: b) = some a.length := by
  induction a with
  | nil => simp [findChar]
  | cons x xs ih =>
    have hx : ¬ (x = c) := fun e => h (by simp [e])
    have ih2 := ih (fun hm => h (List.mem_cons_of_mem _ hm))
    simp [findChar, hx, ih2]

lemma splitOnceChar_append (c : Char) (a b : Str) (h : c ∉ a) :
    splitOnceChar c (a ++ c :: b) = some (a, b) := by
  induction a with
  | nil => simp [splitOnceChar]
  | cons x xs ih =>
    have hx : ¬ (x = c) := fun e => h (by simp [e])
    have ih2 := ih (fun hm => h (List.mem_cons_of_mem _ hm))
    simp [splitOnceChar, hx, ih2]

lemma splitOnceChar_sound (c : Char) :
    ∀ l a b : Str, splitOnceChar c l = some (a, b) → l = a ++ c :: b ∧ c ∉ a := by
  intro l
  induction l with
  | nil => intro a b h; cases h
  | cons x xs ih =>
    intro a b h
    by_cases hx : x = c
    · simp only [splitOnceChar, if_pos hx, Option.some.injEq, Prod.mk.injEq] at h
      obtain ⟨ha, hb⟩ := h
      subst ha; subst hb
      simp [hx]
    · simp only [splitOnceChar, if_neg hx, Option.map_eq_some'] at h
      obtain ⟨⟨a1, b1⟩, hsp, hpair⟩ := h
      obtain ⟨ha, hb⟩ := Prod.mk.injEq .. |>.mp hpair
      subst hb
      obtain ⟨h1, h2⟩ := ih a1 b1 hsp
      subst ha
      constructor
      · simp [h1]
      · intro hm
        rcases List.mem_cons.mp hm with h3 | h3
        · exact hx h3.symm
        · exact h2 h3

lemma trimStr_of_all_ws (w : Str) (h : ∀ c ∈ w, isRustWhitespace c = true) :
    trimStr w = [] := by
  have h1 : trimStart w = [] := by
    simp only [trimStart, List.dropWhile_eq_nil_iff]
    exact h
  simp [trimStr, h1, trimEnd]

/-! Claim theorems. -/

/-- C8: when the first opening marker of the current string has no
closing `\x7d` anywhere after it, the substitution loop stops and
returns the whole string unchanged, unmatched marker included. -/
theorem C8_unterminated (env : Env) (n : Nat) (r : Str) (s : Nat)
    (h1 : findSub dolBrace r = some s)
    (h2 : findChar '\x7d' (r.drop (s + 2)) = none) :
    substFuel (n + 1) env r = some r := by
  have hstep : substStep env r = none := by
    simp [substStep, h1, h2]
  simp [substFuel, hstep]

/-- C8 witness: the template `a-$\x7bUNCLOSED` resolves to itself
unchanged. -/
theorem C8_witness :
    findSub dolBrace "a-$\x7bUNCLOSED".toList = some 2 ∧
    substFuel (4 + 1) [] "a-$\x7bUNCLOSED".toList = some "a-$\x7bUNCLOSED".toList :=
  ⟨by decide, C8_unterminated [] 4 "a-$\x7bUNCLOSED".toList 2 (by decide) (by decide)⟩

/-- C2: the resolver does not always terminate.  With the environment
`A = "$\x7bA\x7d"`, substituting the template `$\x7bA\x7d` reproduces the same
string at every iteration, so the loop finishes under no amount of
fuel; consequently header resolution for a profile using that template
also finishes under no amount of fuel. -/
theorem C2_divergence :
    (∀ n, substFuel n envC2 tC2 = none) ∧
    (∀ n, get_custom_headers n stC2 pC2 = none) := by
  have hstep : substStep envC2 tC2 = some tC2 := by decide
  have h1 : ∀ n, substFuel n envC2 tC2 = none := by
    intro n
    induction n with
    | zero => rfl
    | succ k ih => simp [substFuel, hstep, ih]
  refine ⟨h1, fun n => ?_⟩
  have hv : stC2.vars = envC2 := rfl
  simp [get_custom_headers, providerMap, pC2, hv, h1 n]

/-- C7: each block line is split at its first colon (the returned name
contains no colon and name, colon, value reassemble the line), a line
with no colon contributes no entry while processing of the remaining
lines continues, and a line with a colon inserts the trimmed name with
the substituted trimmed value before the remaining lines are
processed. -/
theorem C7_block_lines (n : Nat) (env : Env) (m : HMap) (line : Str)
    (rest : List Str) :
    (∀ a b : Str, splitOnceChar ':' line = some (a, b) →
      line = a ++ ':' :: b ∧ ':' ∉ a) ∧
    (splitOnceChar ':' line = none →
      processBlock n env m (line :: rest) = processBlock n env m rest) ∧
    (∀ a b pv : Str, splitOnceChar ':' line = some (a, b) →
      substFuel n env (trimStr b) = some pv →
      processBlock n env m (line :: rest) =
        processBlock n env (hInsert (trimStr a) pv m) rest) := by
  refine ⟨fun a b h => splitOnceChar_sound ':' line a b h, fun h => ?_, ?_⟩
  · simp [processBlock, processLine, h]
  · intro a b pv h1 h2
    simp [processBlock, processLine, h1, h2]

/-- C7 witness: a colon-free line is skipped and processing continues;
a well-formed line inserts its trimmed, substituted entry. -/
theorem C7_witness :
    processBlock 1 [] hEmpty ("no colon line".toList :: ["X-B: v".toList]) =
      processBlock 1 [] hEmpty ["X-B: v".toList] ∧
    processBlock 1 [] hEmpty ["X-B: v".toList] =
      processBlock 1 [] (hInsert "X-B".toList "v".toList hEmpty) [] :=
  ⟨(C7_block_lines 1 [] hEmpty "no colon line".toList ["X-B: v".toList]).2.1
      (by decide),
   (C7_block_lines 1 [] hEmpty "X-B: v".toList []).2.2
      "X-B".toList " v".toList "v".toList (by decide) (by decide)⟩

/-- C10: a block line whose first colon is preceded only by whitespace
is not skipped and does not fail; it inserts an entry whose header name
is the empty string. -/
theorem C10_empty_name (n : Nat) (env : Env) (m : HMap) (w v pv : Str)
    (hw : ∀ c ∈ w, isRustWhitespace c = true)
    (hv : substFuel n env (trimStr v) = some pv) :
    processLine n env m (w ++ ':' :: v) = some (hInsert [] pv m) ∧
    hInsert [] pv m [] = some pv := by
  have hcol : ':' ∉ w := fun hc =>
    absurd (hw ':' hc) (by decide)
  have hs := splitOnceChar_append ':' w v hcol
  have ht := trimStr_of_all_ws w hw
  constructor
  · simp [processLine, hs, hv, ht]
  · simp [hInsert]

/-- C10 witness: the line `: some value` (name part is a single space)
inserts the empty header name with value `some value`. -/
theorem C10_witness :
    processLine 1 [] hEmpty ([' '] ++ ':' :: " some value".toList) =
      some (hInsert [] "some value".toList hEmpty) ∧
    hInsert [] "some value".toList hEmpty [] = some "some value".toList :=
  C10_empty_name 1 [] hEmpty [' '] " some value".toList "some value".toList
    (by decide) (by decide)

lemma get_full_url_eq (p : ModelProviderInfo) :
    get_full_url p = baseAndSuffix p ++ queryStringOf p.query_params := by
  unfold get_full_url baseAndSuffix
  cases p.wire_api <;> simp

/-- C3 counterexample: with `query_params` present but empty, the built
URL ends in a lone question mark, so something is appended after the
wire-protocol segment. -/
theorem C3_counterexample :
    pC3.query_params = some [] ∧
    get_full_url pC3 = "b/chat/completions?".toList ∧
    get_full_url pC3 ≠ "b".toList ++ "/chat/completions".toList := by
  refine ⟨rfl, by decide, by decide⟩

/-- C3 (amended): a `?`-led query string is appended exactly when
`query_params` is present (`some`); a present map renders as the
`&`-joined raw `k=v` entries after `?` (a lone `?` when the map is
empty), and nothing is appended exactly when `query_params` is
absent. -/
theorem C3_query_string (p : ModelProviderInfo) :
    (p.query_params = none → get_full_url p = baseAndSuffix p) ∧
    (∀ qp, p.query_params = some qp →
      get_full_url p =
        baseAndSuffix p ++ '?' :: joinAmp (qp.map (fun kv => kv.1 ++ '=' :: kv.2))) ∧
    (get_full_url p = baseAndSuffix p ↔ p.query_params = none) := by
  have hbase := get_full_url_eq p
  refine ⟨fun h => ?_, fun qp h => ?_, ?_, fun h => ?_⟩
  · simp [hbase, h, queryStringOf]
  · simp [hbase, h, queryStringOf]
  · intro h
    cases hq : p.query_params with
    | none => rfl
    | some qp =>
      exfalso
      rw [hbase, hq] at h
      have hlen := congrArg List.length h
      simp [queryStringOf] at hlen
  · simp [hbase, h, queryStringOf]

/-- C3 witness: the Azure-shaped profile renders its one query
parameter raw after `?`. -/
theorem C3_witness :
    pAzure.query_params = some [("api-version".toList, "2025-04-01-preview".toList)] ∧
    get_full_url pAzure =
      "https://x.openai.azure.com/openai/chat/completions?api-version=2025-04-01-preview".toList := by
  refine ⟨rfl, ?_⟩
  have h := (C3_query_string pAzure).2.1
    [("api-version".toList, "2025-04-01-preview".toList)] rfl
  rw [h]
  decide

/-- C4: the built URL is `base_url` plus `/responses` under
`Responses` and `base_url` plus `/chat/completions` under `Chat`, each
followed by the query string, and these two variants exhaust
`WireApi`. -/
theorem C4_wire_suffix (p : ModelProviderInfo) :
    (p.wire_api = WireApi.Responses →
      get_full_url p =
        p.base_url ++ "/responses".toList ++ queryStringOf p.query_params) ∧
    (p.wire_api = WireApi.Chat →
      get_full_url p =
        p.base_url ++ "/chat/completions".toList ++ queryStringOf p.query_params) ∧
    (∀ w : WireApi, w = WireApi.Responses ∨ w = WireApi.Chat) := by
  refine ⟨fun h => ?_, fun h => ?_, fun w => ?_⟩
  · simp [get_full_url, h]
  · simp [get_full_url, h]
  · cases w
    · exact Or.inl rfl
    · exact Or.inr rfl

/-- C4 witness: the built-in OpenAI provider, which uses the
`Responses` wire protocol, resolves to its responses endpoint. -/
theorem C4_witness :
    get_full_url openaiProvider = "https://api.openai.com/v1/responses".toList := by
  have h := (C4_wire_suffix openaiProvider).1 rfl
  rw [h]
  decide

/-- C1 (amended): each placeholder is replaced by the environment
value of its name spliced in verbatim, but afterwards the loop rescans
the whole updated string from the start, so text introduced by a
replacement is itself scanned for further placeholders. -/
theorem C1_subst_rescans (env : Env) (n : Nat) (name value rest : Str)
    (hv : envVar env name = some value) (hn : '\x7d' ∉ name) :
    substFuel (n + 1) env ('$' :: '\x7b' :: (name ++ '\x7d' :: rest)) =
      substFuel n env (value ++ rest) := by
  have h1 : findSub dolBrace ('$' :: '\x7b' :: (name ++ '\x7d' :: rest)) = some 0 :=
    findSub_here _
  have h2 : findChar '\x7d'
      (('$' :: '\x7b' :: (name ++ '\x7d' :: rest)).drop (0 + 2)) = some name.length := by
    show findChar '\x7d' (name ++ '\x7d' :: rest) = some name.length
    exact findChar_append '\x7d' name rest hn
  have h3 : (('$' :: '\x7b' :: (name ++ '\x7d' :: rest)).drop (0 + 2)).take name.length
      = name := by
    show (name ++ '\x7d' :: rest).take name.length = name
    exact List.take_left' rfl
  have h4 : ('$' :: '\x7b' :: (name ++ '\x7d' :: rest)).drop (0 + 3 + name.length)
      = rest := by
    have e1 : '$' :: '\x7b' :: (name ++ '\x7d' :: rest) =
        (('$' :: '\x7b' :: name) ++ ['\x7d']) ++ rest := by simp
    rw [e1]
    refine List.drop_left' ?_
    simp
    omega
  have hstep : substStep env ('$' :: '\x7b' :: (name ++ '\x7d' :: rest)) =
      some (value ++ rest) := by
    simp only [substStep, h1, h2, h3, h4]
    simp [hv]
  simp [substFuel, hstep]

/-- C1 counterexample: with `A = "$\x7bB\x7d"` and `B = "x"`, the code
resolves `$\x7bA\x7d` all the way to `x`, whereas single-level textual
substitution (the claim) yields `$\x7bB\x7d`. -/
theorem C1_counterexample :
    substFuel 3 envC1 "$\x7bA\x7d".toList = some "x".toList ∧
    substSpec envC1 "$\x7bA\x7d".toList = "$\x7bB\x7d".toList ∧
    ("x".toList : Str) ≠ "$\x7bB\x7d".toList := by
  refine ⟨by decide, by decide, by decide⟩

/-- C1 witness: one loop iteration splices the value of `A` verbatim
and continues on the entire updated string. -/
theorem C1_witness :
    substFuel (1 + 1) envC1 ('$' :: '\x7b' :: ("A".toList ++ '\x7d' :: "-tail".toList)) =
      substFuel 1 envC1 ("$\x7bB\x7d".toList ++ "-tail".toList) :=
  C1_subst_rescans envC1 1 "A".toList "$\x7bB\x7d".toList "-tail".toList rfl (by decide)

lemma api_key_char (st : EnvState) (p : ModelProviderInfo) (k : Str)
    (h : p.env_key = some k) :
    api_key st p =
      match credLookup st k with
      | none => Except.error { var := k, instructions := p.env_key_instructions }
      | some v =>
        if trimStr v = [] then
          Except.error { var := k, instructions := p.env_key_instructions }
        else Except.ok (some v) := by
  have he : (if k = OPENAI_API_KEY_ENV_VAR then
        optionToVarResult (get_openai_api_key st)
      else optionToVarResult (envVar st.vars k)) =
      optionToVarResult (credLookup st k) := by
    by_cases hk : k = OPENAI_API_KEY_ENV_VAR <;> simp [credLookup, hk]
  simp only [api_key, h, he]
  cases hc : credLookup st k with
  | none => simp [optionToVarResult, Except.bind]
  | some v =>
    by_cases ht : trimStr v = [] <;> simp [optionToVarResult, Except.bind, ht]

/-- C5 (amended): when `env_key` is absent the result is "no
credential" and never a failure; when `env_key` names `k`, the call
fails with `MissingCredential` carrying `k` and the profile's
instructions exactly when the credential lookup for `k` (the
environment variable, or for the designated primary key variable the
`get_openai_api_key` lookup with its alternate fallback) yields no
value or an all-whitespace value, and otherwise returns that looked-up
value. -/
theorem C5_missing_credential (st : EnvState) (p : ModelProviderInfo) :
    (p.env_key = none → api_key st p = Except.ok none) ∧
    (∀ k, p.env_key = some k →
      ((api_key st p =
          Except.error { var := k, instructions := p.env_key_instructions }) ↔
        (credLookup st k = none ∨
          ∃ v, credLookup st k = some v ∧ trimStr v = [])) ∧
      (∀ v, credLookup st k = some v → trimStr v ≠ [] →
        api_key st p = Except.ok (some v))) := by
  constructor
  · intro h; simp [api_key, h]
  · intro k hk
    have hc := api_key_char st p k hk
    constructor
    · rw [hc]
      cases hcl : credLookup st k with
      | none => simp
      | some v =>
        by_cases ht : trimStr v = [] <;> simp [ht]
    · intro v hv ht
      rw [hc, hv]
      simp [ht]

/-- C5 counterexample: for the primary key variable, the alternate
lookup can succeed while the named environment variable is absent, so
no `MissingCredential` failure is raised even though the claim demands
one. -/
theorem C5_counterexample :
    envVar stC5.vars OPENAI_API_KEY_ENV_VAR = none ∧
    api_key stC5 pC5 = Except.ok (some "sk-alt".toList) :=
  ⟨rfl, rfl⟩

/-- C5 witness: a whitespace-only `AZURE_KEY` produces the failure
carrying the variable name and the profile's instructions. -/
theorem C5_witness :
    api_key stC5w pC5w =
      Except.error { var := "AZURE_KEY".toList, instructions := some "set it".toList } :=
  ((C5_missing_credential stC5w pC5w).2 "AZURE_KEY".toList rfl).1.mpr
    (Or.inr ⟨"   ".toList, rfl, by decide⟩)

/-- C9: a successful credential is handed to the caller exactly as the
lookup produced it (raw, untrimmed), and its trimmed form is
non-empty. -/
theorem C9_nonblank (st : EnvState) (p : ModelProviderInfo) (v : Str)
    (h : api_key st p = Except.ok (some v)) :
    trimStr v ≠ [] ∧ ∃ k, p.env_key = some k ∧ credLookup st k = some v := by
  cases hk : p.env_key with
  | none => simp [api_key, hk] at h
  | some k =>
    rw [api_key_char st p k hk] at h
    cases hc : credLookup st k with
    | none => rw [hc] at h; simp at h
    | some w =>
      rw [hc] at h
      by_cases ht : trimStr w = []
      · simp [ht] at h
      · simp [ht] at h
        subst h
        exact ⟨ht, k, rfl, hc⟩

/-- C9 witness: the credential ` k ` (with surrounding blanks) is
returned untrimmed and is non-blank after trimming. -/
theorem C9_witness :
    trimStr " k ".toList ≠ [] ∧
    ∃ k, pC9w.env_key = some k ∧ credLookup stC9w k = some " k ".toList :=
  C9_nonblank stC9w pC9w " k ".toList rfl

lemma processBlock_pair (n : Nat) (env : Env) :
    ∀ (lines : List Str) (m m' M : HMap),
      processBlock n env m lines = some M →
      ∃ M', processBlock n env m' lines = some M' ∧
        ∀ k, M k = M' k ∨ (M k = m k ∧ M' k = m' k) := by
  intro lines
  induction lines with
  | nil =>
    intro m m' M h
    have hm : m = M := by simpa [processBlock] using h
    subst hm
    exact ⟨m', by simp [processBlock], fun k => Or.inr ⟨rfl, rfl⟩⟩
  | cons line rest ih =>
    intro m m' M h
    cases hsplit : splitOnceChar ':' line with
    | none =>
      have hl : ∀ mm : HMap, processLine n env mm line = some mm := by
        intro mm; simp [processLine, hsplit]
      simp only [processBlock, hl] at h ⊢
      exact ih m m' M h
    | some kv =>
      obtain ⟨k0, v0⟩ := kv
      cases hsub : substFuel n env (trimStr v0) with
      | none =>
        have hl : processLine n env m line = none := by
          simp [processLine, hsplit, hsub]
        simp [processBlock, hl] at h
      | some pv =>
        have hl : ∀ mm : HMap,
            processLine n env mm line = some (hInsert (trimStr k0) pv mm) := by
          intro mm; simp [processLine, hsplit, hsub]
        simp only [processBlock, hl] at h ⊢
        obtain ⟨M', hM', hrel⟩ :=
          ih (hInsert (trimStr k0) pv m) (hInsert (trimStr k0) pv m') M h
        refine ⟨M', hM', fun k => ?_⟩
        rcases hrel k with h1 | ⟨h2, h3⟩
        · exact Or.inl h1
        · by_cases hk : k = trimStr k0
          · refine Or.inl ?_
            rw [h2, h3]
            simp [hInsert, hk]
          · refine Or.inr ⟨?_, ?_⟩
            · rw [h2]; simp [hInsert, hk]
            · rw [h3]; simp [hInsert, hk]

/-- C6: whatever the per-profile headers contribute, any header name
assigned by the process-wide block (processed on its own from the
empty map) ends up in the full resolution with the block's substituted
value — the block is applied after the per-profile headers and
overrides them. -/
theorem C6_process_wide_overrides (n : Nat) (st : EnvState)
    (p : ModelProviderInfo) (block : Str) (M Mb : HMap) (name v : Str)
    (hb : envVar st.vars CODEX_CUSTOM_HEADERS_VAR = some block)
    (hM : get_custom_headers n st p = some M)
    (hMb : processBlock n st.vars hEmpty (linesList block) = some Mb)
    (hv : Mb name = some v) :
    M name = some v := by
  cases hpm : providerMap n st.vars hEmpty (p.custom_headers.getD []) with
  | none =>
    simp only [get_custom_headers, hpm] at hM
    simp at hM
  | some m1 =>
    simp only [get_custom_headers, hpm, hb] at hM
    obtain ⟨M2, hM2, hrel⟩ :=
      processBlock_pair n st.vars (linesList block) m1 hEmpty M hM
    rw [hM2] at hMb
    obtain rfl : M2 = Mb := by simpa using hMb
    rcases hrel name with h | ⟨h1, h2⟩
    · rw [h]; exact hv
    · rw [h2] at hv
      simp [hEmpty] at hv

/-- C6 witness: per-profile `X-A: static` against the process-wide
line `X-A: Bearer $\x7bT\x7d` with `T=secret` resolves `X-A` to
`Bearer secret`. -/
theorem C6_witness : MC6 "X-A".toList = some "Bearer secret".toList :=
  C6_process_wide_overrides 2 stC6 pC6 "X-A: Bearer $\x7bT\x7d".toList MC6 MbC6
    "X-A".toList "Bearer secret".toList rfl rfl rfl rfl
